import Mathlib

/-!
Verification development for the `bitatui` terminal dashboard
(`src/main.rs`, `src/cli.rs`, `src/node.rs`, `src/file.rs`).

The interactive session controller is shallowly embedded: Rust strings are
`List Char` (`RStr`) but lengths and the overlay cursor follow the source's
*byte* indexing (`byteLen`, `charWidth`), so `String::insert`/`String::remove`
keep their panics on non-char-boundary indices; the mutable locals of
`main`'s event loop form the record `AppState`, and one accepted key event
is the step function `step`.
External collaborators (the spawned `bitcoin-cli` process, the clipboard,
the filesystem write, the `bitcoin` crate's address parser, the clock) are
oracles collected in `Env`.  A Rust `panic!` (from `unwrap`/out-of-bounds
indexing) is the `StepOut.panicked` outcome; a `?`-propagated error out of
`main` is `StepOut.abort`.  Timestamps (`Instant`, `DateTime<Utc>`) are
modelled as `Nat`.
-/

-- ===== Definitions: shallow embedding of the program =====

/-- Rust `String` / `&str`, modelled at character granularity. -/
abbrev RStr := List Char

/-- Rust `char::is_whitespace` (the Unicode `White_Space` property),
used by `str::trim` and `str::split_whitespace`. -/
def isRustWhitespace (c : Char) : Bool :=
  let n := c.toNat
  (9 ≤ n && n ≤ 13) || n == 32 || n == 0x85 || n == 0xA0 || n == 0x1680 ||
  (0x2000 ≤ n && n ≤ 0x200A) || n == 0x2028 || n == 0x2029 || n == 0x202F ||
  n == 0x205F || n == 0x3000

/-- Rust `char::is_control` (the Unicode `Cc` category). -/
def isRustControl (c : Char) : Bool :=
  c.toNat ≤ 31 || (127 ≤ c.toNat && c.toNat ≤ 159)

/-- Rust `str::trim`: drop leading and trailing whitespace. -/
def rustTrim (s : RStr) : RStr :=
  ((s.dropWhile isRustWhitespace).reverse.dropWhile isRustWhitespace).reverse

/-- Split a string at every `'\n'`, keeping empty segments
(`n` newlines give `n + 1` segments). -/
def splitOnNl : RStr → List RStr
  | [] => [[]]
  | c :: rest =>
    let r := splitOnNl rest
    if c = '\n' then [] :: r
    else
      match r with
      | [] => [[c]]
      | h :: t => (c :: h) :: t

/-- Strip one trailing `'\r'`, as Rust `str::lines` does per line. -/
def stripCr (l : RStr) : RStr :=
  if l.getLast? = some '\r' then l.dropLast else l

/-- Rust `str::lines`: split on `'\n'`, do not produce a final empty line
for a trailing newline, and strip one trailing `'\r'` from each
`'\n'`-terminated line (a final unterminated line keeps its `'\r'`). -/
def rustLines (s : RStr) : List RStr :=
  if s = [] then []
  else
    let segs := splitOnNl s
    if s.getLast? = some '\n' then (segs.dropLast).map stripCr
    else
      match segs.getLast? with
      | some lastSeg => (segs.dropLast).map stripCr ++ [lastSeg]
      | none => []

/-- Rust `str::split_whitespace`, accumulator-based: `cur` is the current
token, reversed. -/
def splitWsAux : RStr → RStr → List RStr
  | cur, [] => if cur = [] then [] else [cur.reverse]
  | cur, c :: rest =>
    if isRustWhitespace c then
      if cur = [] then splitWsAux [] rest
      else cur.reverse :: splitWsAux [] rest
    else splitWsAux (c :: cur) rest

/-- Rust `str::split_whitespace` (collected to a list of tokens). -/
def rustSplitWhitespace (s : RStr) : List RStr := splitWsAux [] s

/-- Number of bytes in the UTF-8 encoding of `c` (Rust `char::len_utf8`). -/
def charWidth (c : Char) : Nat :=
  if c.toNat ≤ 0x7F then 1
  else if c.toNat ≤ 0x7FF then 2
  else if c.toNat ≤ 0xFFFF then 3
  else 4

/-- Rust `String::len`: the length in *bytes* (the quantity `address.len()`
and `addr_cursor` range over in the source). -/
def byteLen (s : RStr) : Nat := (s.map charWidth).sum

/-- Rust `String::insert` at a *byte* index: `none` models the panic when
the index is past the end or not on a char boundary. -/
def byteInsert (s : RStr) (i : Nat) (c : Char) : Option RStr :=
  match s, i with
  | s, 0 => some (c :: s)
  | [], _ + 1 => none
  | c0 :: rest, i + 1 =>
    if i + 1 < charWidth c0 then none
    else
      match byteInsert rest (i + 1 - charWidth c0) c with
      | some t => some (c0 :: t)
      | none => none

/-- Rust `String::remove` at a *byte* index: removes the character
starting there; `none` models the panic when the index is out of bounds
or not on a char boundary. -/
def byteRemove (s : RStr) (i : Nat) : Option RStr :=
  match s, i with
  | [], _ => none
  | _ :: rest, 0 => some rest
  | c0 :: rest, i + 1 =>
    if i + 1 < charWidth c0 then none
    else
      match byteRemove rest (i + 1 - charWidth c0) with
      | some t => some (c0 :: t)
      | none => none

-- ===== src/cli.rs : run_bitcoin_cli =====

/-- The captured result of `std::process::Command::output()`:
exit-status success flag plus the captured stdout/stderr text
(after `String::from_utf8_lossy`). -/
structure ProcOut where
  success : Bool
  stdout : RStr
  stderr : RStr
deriving DecidableEq, Repr

/-- Oracle for spawning `bitcoin-cli` with a full argument list:
`Except.error` models the `?`-propagated spawn/capture failure of
`Command::output()`. -/
def ProcOracle := List RStr → Except RStr ProcOut

/-- `format!("-rpcuser={}", rpc_user)` with
`std::env::var("RPC_USER").unwrap_or_else(|_| "youruser".to_string())`. -/
def rpcUserArg (user? : Option RStr) : RStr :=
  ("-rpcuser=").data ++ user?.getD (("youruser").data)

/-- `format!("-rpcpassword={}", rpc_password)` with the
`"yourpassword"` default. -/
def rpcPassArg (pass? : Option RStr) : RStr :=
  ("-rpcpassword=").data ++ pass?.getD (("yourpassword").data)

/-- `src/cli.rs::run_bitcoin_cli`.  The command text is split on
whitespace; `parts.next().unwrap()` panics (`none`) when the command is
empty or all-whitespace.  A spawn failure is re-raised (`some (.error e)`);
a run with non-zero exit status is an `Ok` carrying
`"Error: " ++ stderr`. -/
def run_bitcoin_cli (user? pass? : Option RStr) (proc : ProcOracle)
    (command : RStr) : Option (Except RStr RStr) :=
  match rustSplitWhitespace command with
  | [] => none
  | baseCmd :: args =>
    match proc (rpcUserArg user? :: rpcPassArg pass? :: baseCmd :: args) with
    | .error e => some (.error e)
    | .ok o =>
      some (.ok (if o.success then o.stdout else ("Error: ").data ++ o.stderr))

-- ===== src/main.rs : address validation (check_address) =====

/-- `bitcoin::Network`, the five variants matched in the source. -/
inductive Network
  | bitcoin
  | testnet
  | testnet4
  | signet
  | regtest
deriving DecidableEq, Repr

/-- `AddrValidity` from `src/main.rs`. -/
inductive AddrValidity
  | empty
  | invalid
  | validAny (net : Network)
deriving DecidableEq, Repr

/-- Opaque stand-in for a parsed `bitcoin::Address<NetworkUnchecked>`
value produced by the external `bitcoin` crate. -/
abbrev ParsedAddr := Nat

/-- The `bitcoin` crate's address capability, as consumed by
`check_address`: `Address::from_str` and `require_network(..).is_ok()`. -/
structure AddrCap where
  fromStr : RStr → Option ParsedAddr
  requireNetwork : ParsedAddr → Network → Bool

/-- The fixed priority order of the `for net in [...]` loop in
`check_address`. -/
def netPriority : List Network :=
  [Network.bitcoin, Network.testnet, Network.testnet4, Network.signet,
   Network.regtest]

/-- The `for` loop with early `return` inside `check_address`. -/
def findValidNet (P : AddrCap) (a : ParsedAddr) : List Network → Option Network
  | [] => none
  | n :: rest => if P.requireNetwork a n then some n else findValidNet P a rest

/-- `src/main.rs::check_address`: trim, classify blank as `Empty`, parse,
then report the first network (in `netPriority` order) the parsed address
is valid for, else `Invalid`. -/
def check_address (P : AddrCap) (addr : RStr) : AddrValidity :=
  let s := rustTrim addr
  if s = [] then .empty
  else
    match P.fromStr s with
    | some a =>
      match findValidNet P a netPriority with
      | some n => .validAny n
      | none => .invalid
    | none => .invalid

-- ===== src/main.rs : QR helper =====

/-- Oracle for `qrcode::QrCode::new` followed by the unicode render:
`Except.error` models the `Err` the library returns (e.g. data too long),
which `generate_qr_unicode` unwraps. -/
def QrOracle := RStr → Except RStr RStr

/-- `src/main.rs::generate_qr_unicode`: substitutes `" "` for empty input
("Render a tiny valid QR even for empty input to avoid panic"), then
`QrCode::new(safe).unwrap()` — `none` models that panic. -/
def generate_qr_unicode (qr : QrOracle) (data : RStr) : Option RStr :=
  let safe := if data = [] then [' '] else data
  match qr safe with
  | .ok g => some g
  | .error _ => none

-- ===== src/main.rs : session state, environment, and the event step =====

/-- `AddressEntry` from `src/main.rs` (`chrono::DateTime<Utc>` timestamps
are modelled as `Nat`). -/
structure AddressEntry where
  created_at : Nat
  address : RStr
deriving DecidableEq, Repr

/-- The mutable locals of `main`'s event loop (debounce/refresh `Instant`s
and the terminal handle are omitted: the step function below models one
*accepted* key event). -/
structure AppState where
  selected : Nat
  output : RStr
  output_lines : List RStr
  scroll_offset : Nat
  node_info : RStr
  wallet_info : RStr
  show_qr_overlay : Bool
  address : RStr
  addr_cursor : Nat
  overlay_status : Option (RStr × Nat)
  addr_book : List AddressEntry
  addr_selected : Nat
deriving DecidableEq, Repr

/-- External collaborators plus the per-session command list
(loaded once, immutable) and the current wall-clock instant. -/
structure Env where
  rpcUser? : Option RStr
  rpcPass? : Option RStr
  proc : ProcOracle
  nodeInfo : Except RStr RStr
  walletInfo : Except RStr RStr
  clip : RStr → Except RStr Unit
  saveBook : List AddressEntry → Except RStr Unit
  addrCap : AddrCap
  commands : List RStr
  now : Nat

/-- `run_bitcoin_cli` with the session's credential environment. -/
def runCli (E : Env) (command : RStr) : Option (Except RStr RStr) :=
  run_bitcoin_cli E.rpcUser? E.rpcPass? E.proc command

/-- The `crossterm::event::KeyCode` values the loop matches on. -/
inductive Key
  | esc
  | left
  | right
  | home
  | endKey
  | backspace
  | delete
  | up
  | down
  | pageDown
  | pageUp
  | enter
  | char (c : Char)
  | other
deriving DecidableEq, Repr

/-- Outcome of handling one accepted key event: continue the loop, break
out of it (`q`), abort `main` via `?` with an error, or hit a Rust
panic. -/
inductive StepOut
  | cont (s : AppState)
  | quit (s : AppState)
  | abort (e : RStr)
  | panicked
deriving DecidableEq, Repr

/-- `run_bitcoin_cli(&commands[sel])?` followed by the line split and the
scroll reset, shared by the Enter/Up/Down/refresh arms. -/
def runSelected (E : Env) (st : AppState) (sel : Nat) : StepOut :=
  match E.commands.get? sel with
  | none => .panicked
  | some cmd =>
    match runCli E cmd with
    | none => .panicked
    | some (.error e) => .abort e
    | some (.ok out) =>
      .cont { st with selected := sel, output := out,
                      output_lines := rustLines out, scroll_offset := 0 }

/-- `matches!(check_address(&new_addr), AddrValidity::ValidAny(_))` from
the `'n'` arm. -/
def AddrValidity.isValidAny : AddrValidity → Bool
  | .validAny _ => true
  | _ => false

/-- The overlay key handling (the `if show_qr_overlay` block of the
loop). -/
def overlayStep (E : Env) (k : Key) (st : AppState) : StepOut :=
  match k with
  | .esc => .cont { st with show_qr_overlay := false }
  | .left =>
    .cont (if st.addr_cursor > 0 then
             { st with addr_cursor := st.addr_cursor - 1 } else st)
  | .right =>
    .cont (if st.addr_cursor < byteLen st.address then
             { st with addr_cursor := st.addr_cursor + 1 } else st)
  | .home => .cont { st with addr_cursor := 0 }
  | .endKey => .cont { st with addr_cursor := byteLen st.address }
  | .backspace =>
    if st.addr_cursor > 0 ∧ st.address ≠ [] then
      match byteRemove st.address (st.addr_cursor - 1) with
      | some a => .cont { st with address := a,
                                  addr_cursor := st.addr_cursor - 1 }
      | none => .panicked
    else .cont st
  | .delete =>
    if st.addr_cursor < byteLen st.address ∧ st.address ≠ [] then
      match byteRemove st.address st.addr_cursor with
      | some a => .cont { st with address := a }
      | none => .panicked
    else .cont st
  | .up =>
    if st.addr_book ≠ [] ∧ st.addr_selected > 0 then
      match st.addr_book.get? (st.addr_selected - 1) with
      | some e => .cont { st with addr_selected := st.addr_selected - 1,
                                  address := e.address,
                                  addr_cursor := byteLen e.address }
      | none => .panicked
    else .cont st
  | .down =>
    if st.addr_book ≠ [] ∧ st.addr_selected + 1 < st.addr_book.length then
      match st.addr_book.get? (st.addr_selected + 1) with
      | some e => .cont { st with addr_selected := st.addr_selected + 1,
                                  address := e.address,
                                  addr_cursor := byteLen e.address }
      | none => .panicked
    else .cont st
  | .char c =>
    if c = 'x' then .cont { st with show_qr_overlay := false }
    else if c = 'g' then
      match runCli E (("getnewaddress").data) with
      | none => .panicked
      | some (.ok s) =>
        let a := rustTrim s
        .cont { st with address := a, addr_cursor := byteLen a,
                        overlay_status :=
                          some ((("New address fetched").data, E.now)) }
      | some (.error e) =>
        .cont { st with overlay_status :=
                          some ((("getnewaddress error: ").data ++ e, E.now)) }
    else if c = 'n' then
      match runCli E (("getnewaddress").data) with
      | none => .panicked
      | some (.ok s) =>
        if (check_address E.addrCap (rustTrim s)).isValidAny then
          .cont { st with
            addr_book := st.addr_book ++ [AddressEntry.mk E.now (rustTrim s)],
            overlay_status :=
              some (match E.saveBook
                      (st.addr_book ++ [AddressEntry.mk E.now (rustTrim s)])
                    with
                    | .ok _ => ((("New address saved").data, E.now))
                    | .error e => ((("Save failed: ").data ++ e, E.now))),
            addr_selected :=
              (st.addr_book ++
                [AddressEntry.mk E.now (rustTrim s)]).length - 1,
            address := rustTrim s,
            addr_cursor := byteLen (rustTrim s) }
        else
          .cont { st with overlay_status :=
                            some ((("RPC returned invalid address").data,
                                   E.now)) }
      | some (.error e) =>
        .cont { st with overlay_status :=
                          some ((("getnewaddress error: ").data ++ e, E.now)) }
    else if c = 'c' then
      match E.clip st.address with
      | .ok _ =>
        .cont { st with overlay_status :=
                          some ((("Copied to clipboard").data, E.now)) }
      | .error e =>
        .cont { st with overlay_status :=
                          some ((("Copy failed: ").data ++ e, E.now)) }
    else if ¬ isRustControl c ∧ c ≠ ' ' then
      match byteInsert st.address
          (min st.addr_cursor (byteLen st.address)) c with
      | some a =>
        .cont { st with address := a,
                        addr_cursor := min (st.addr_cursor + 1) (byteLen a) }
      | none => .panicked
    else .cont st
  | _ => .cont st

/-- The main-view key handling (overlay closed). -/
def dashStep (E : Env) (k : Key) (st : AppState) : StepOut :=
  match k with
  | .char c =>
    if c = 'q' then .quit st
    else if c = 'w' then
      if st.addr_book ≠ [] then
        match st.addr_book.get? st.addr_selected with
        | some e =>
          .cont { st with show_qr_overlay := true, address := e.address,
                          addr_cursor := byteLen e.address }
        | none => .panicked
      else
        .cont { st with show_qr_overlay := true,
                        addr_cursor := byteLen st.address }
    else if c = 'r' then
      match E.commands.get? st.selected with
      | none => .panicked
      | some cmd =>
        match runCli E cmd with
        | none => .panicked
        | some (.error e) => .abort e
        | some (.ok out) =>
          .cont { st with output := out, output_lines := rustLines out,
                          node_info :=
                            (match E.nodeInfo with
                             | .ok i => i
                             | .error _ => st.node_info),
                          wallet_info :=
                            (match E.walletInfo with
                             | .ok w => w
                             | .error _ => st.wallet_info),
                          scroll_offset := 0 }
    else if c = 'j' then
      .cont (if st.scroll_offset + 1 < st.output_lines.length then
               { st with scroll_offset := st.scroll_offset + 1 } else st)
    else if c = 'k' then
      .cont (if st.scroll_offset > 0 then
               { st with scroll_offset := st.scroll_offset - 1 } else st)
    else .cont st
  | .down =>
    if st.selected < E.commands.length - 1 then
      runSelected E st (st.selected + 1)
    else .cont st
  | .up =>
    if st.selected > 0 then runSelected E st (st.selected - 1)
    else .cont st
  | .pageDown =>
    .cont (if st.scroll_offset + 1 < st.output_lines.length then
             { st with scroll_offset := st.scroll_offset + 1 } else st)
  | .pageUp =>
    .cont (if st.scroll_offset > 0 then
             { st with scroll_offset := st.scroll_offset - 1 } else st)
  | .enter => runSelected E st st.selected
  | _ => .cont st

/-- One accepted key event of the session loop: dispatch to the overlay
or the main view depending on `show_qr_overlay`. -/
def step (E : Env) (k : Key) (st : AppState) : StepOut :=
  if st.show_qr_overlay then overlayStep E k st else dashStep E k st

/-- Run a sequence of accepted key events, stopping at quit/abort/panic. -/
def runKeys (E : Env) : List Key → AppState → StepOut
  | [], st => .cont st
  | k :: ks, st =>
    match step E k st with
    | .cont st' => runKeys E ks st'
    | out => out

-- ===== src/file.rs + src/main.rs : address-book persistence =====
-- `save_address_book` serializes the full entry list with
-- `serde_json::to_string_pretty` and overwrites the file;
-- `load_address_book` parses the file or returns an empty list.  The
-- serde_json codec for `Vec<AddressEntry>` is modelled concretely below:
-- a JSON array of objects with a numeric `created_at` (timestamps are
-- `Nat` in this embedding) and an escaped `address` string.  Whitespace
-- emitted by the pretty printer is immaterial to the round-trip claim and
-- the model emits the compact form.

/-- Is `c` an ASCII digit. -/
def isDigitChar (c : Char) : Bool := 48 ≤ c.toNat && c.toNat ≤ 57

/-- Numeric value of an ASCII digit character. -/
def digitVal (c : Char) : Nat := c.toNat - 48

/-- Little-endian base-10 digits, fuel-indexed so the definition is
structural (and hence evaluates in the kernel). -/
def natDigitsAux : Nat → Nat → List Nat
  | 0, _ => []
  | _ + 1, 0 => []
  | fuel + 1, n + 1 => ((n + 1) % 10) :: natDigitsAux fuel ((n + 1) / 10)

/-- Little-endian base-10 digits of `n` (`n` itself is enough fuel). -/
def natDecDigits (n : Nat) : List Nat := natDigitsAux n n

/-- Decimal rendering of a natural number (JSON number). -/
def encNat (n : Nat) : RStr :=
  if n = 0 then ['0'] else ((natDecDigits n).map Nat.digitChar).reverse

/-- Greedily consume leading ASCII digits, accumulating their value. -/
def parseNatAux (acc : Nat) : RStr → Nat × RStr
  | [] => (acc, [])
  | c :: rest =>
    if isDigitChar c then parseNatAux (10 * acc + digitVal c) rest
    else (acc, c :: rest)

/-- Parse a JSON number (at least one leading digit required). -/
def parseNatTok (s : RStr) : Option (Nat × RStr) :=
  match s with
  | c :: _ => if isDigitChar c then some (parseNatAux 0 s) else none
  | [] => none

/-- JSON escaping of one character (quote and backslash). -/
def escChar (c : Char) : RStr :=
  if c = '"' ∨ c = '\\' then ['\\', c] else [c]

/-- JSON escaping of a string body. -/
def escapeStr (s : RStr) : RStr := (s.map escChar).flatten

/-- A JSON string literal: quoted, escaped body. -/
def encStrLit (s : RStr) : RStr := '"' :: escapeStr s ++ ['"']

/-- Parse the body of a JSON string literal up to the closing quote,
undoing the escapes. -/
def parseStrBody : RStr → Option (RStr × RStr)
  | [] => none
  | c :: rest =>
    if c = '"' then some (([], rest))
    else if c = '\\' then
      match rest with
      | [] => none
      | e :: rest2 =>
        match parseStrBody rest2 with
        | some (v, r) => some ((e :: v, r))
        | none => none
    else
      match parseStrBody rest with
      | some (v, r) => some ((c :: v, r))
      | none => none

/-- Parse a JSON string literal. -/
def parseStrLit : RStr → Option (RStr × RStr)
  | '"' :: rest => parseStrBody rest
  | _ => none

/-- Consume an exact literal prefix. -/
def expectPrefix : RStr → RStr → Option RStr
  | [], s => some s
  | p :: ps, c :: cs => if c = p then expectPrefix ps cs else none
  | _ :: _, [] => none

/-- The serialized field prefix before `created_at`. -/
def entryLit1 : RStr := ("\x7b\"created_at\":").data

/-- The serialized field prefix before `address`. -/
def entryLit2 : RStr := (",\"address\":").data

/-- Serialize one `AddressEntry` (a JSON object). -/
def encEntry (e : AddressEntry) : RStr :=
  entryLit1 ++ encNat e.created_at ++ entryLit2 ++ encStrLit e.address ++
    ("\x7d").data

/-- Parse one serialized `AddressEntry`. -/
def parseEntry (s : RStr) : Option (AddressEntry × RStr) := do
  let s1 ← expectPrefix entryLit1 s
  let (n, s2) ← parseNatTok s1
  let s3 ← expectPrefix entryLit2 s2
  let (a, s4) ← parseStrLit s3
  let s5 ← expectPrefix (("\x7d").data) s4
  some ((⟨n, a⟩, s5))

/-- Comma-join serialized entries. -/
def sepByComma : List RStr → RStr
  | [] => []
  | x :: xs =>
    match xs with
    | [] => x
    | _ :: _ => x ++ ',' :: sepByComma xs

/-- Serialize the whole address book (a JSON array). -/
def encodeBook (l : List AddressEntry) : RStr :=
  '[' :: sepByComma (l.map encEntry) ++ [']']

/-- Parse a comma-separated nonempty entry sequence (fuel-indexed; the
fuel is an upper bound on the number of entries, supplied by the caller
from the input length). -/
def parseBookAux : Nat → RStr → Option (List AddressEntry × RStr)
  | 0, _ => none
  | fuel + 1, s =>
    match parseEntry s with
    | none => none
    | some (e, r) =>
      match r with
      | [] => some (([e], []))
      | c :: r2 =>
        if c = ',' then
          match parseBookAux fuel r2 with
          | some (l, r3) => some ((e :: l, r3))
          | none => none
        else some (([e], c :: r2))

/-- Parse a serialized address book, requiring the input to be consumed
entirely (as `serde_json::from_reader` does). -/
def decodeBook (s : RStr) : Option (List AddressEntry) :=
  match s with
  | [] => none
  | c :: rest =>
    if c = '[' then
      match rest with
      | [] => none
      | d :: rest2 =>
        if d = ']' then (if rest2 = [] then some [] else none)
        else
          match parseBookAux (rest.length + 1) rest with
          | some (l, r) => if r = [']'] then some l else none
          | none => none
    else none

/-- The filesystem, as a map from paths to file contents. -/
def FileSys := RStr → Option RStr

/-- `std::fs::write`: create/overwrite the whole file. -/
def fsWrite (fs : FileSys) (path data : RStr) : FileSys :=
  fun p => if p = path then some data else fs p

/-- `src/main.rs::save_address_book` (successful-write case):
serialize the full list and overwrite the file. -/
def save_address_book (fs : FileSys) (path : RStr)
    (entries : List AddressEntry) : FileSys :=
  fsWrite fs path (encodeBook entries)

/-- `src/main.rs::load_address_book` (same code in `src/file.rs`):
parse the file; an absent or malformed file yields the empty list. -/
def load_address_book (fs : FileSys) (path : RStr) : List AddressEntry :=
  match fs path with
  | none => []
  | some data =>
    match decodeBook data with
    | some l => l
    | none => []

-- ===== Sensitive-data masking (spec-modelled) =====

/-- Modelled from the spec: no masking implementation exists in `src/`
(no `hide_sensitive` flag, mask-toggle key, or digit-replacement code);
the spec's `toggle_hide_sensitive()` masking "replaces every ASCII digit
in the wallet-info text with a fixed placeholder character, leaving all
other characters unchanged".  The placeholder is taken to be `'*'`. -/
def maskChar (c : Char) : Char := if isDigitChar c then '*' else c

/-- Modelled from the spec: the wallet-info masking transform, applied
character-wise over the displayed text. -/
def maskSensitive (s : RStr) : RStr := s.map maskChar

/-- Modelled from the spec: the display layer shows the stored
wallet-info text masked when the flag is set and verbatim otherwise
("purely a display transform, does not mutate stored text"); `mask_off`
is `displayWallet false`. -/
def displayWallet (hide : Bool) (s : RStr) : RStr :=
  if hide then maskSensitive s else s

/-- Concrete address capability for witnesses: parses any nonempty
string, and reports validity only for the testnet network. -/
def capTest : AddrCap where
  fromStr := fun s => if s = [] then none else some 7
  requireNetwork := fun _ n => n = Network.testnet

/-- Process oracle that reports a non-zero exit status with stderr
`"boom"`. -/
def procFail : ProcOracle := fun _ => .ok ⟨false, [], ("boom").data⟩

-- ===== Concrete environments and states for witnesses/counterexamples =====

/-- Process oracle that always succeeds with stdout `"800000\n"`. -/
def procOk : ProcOracle := fun _ => .ok ⟨true, ("800000\n").data, []⟩

/-- Process oracle whose spawn always fails with `"boom"`. -/
def procBoom : ProcOracle := fun _ => .error (("boom").data)

/-- A benign session environment over `procOk` with the one-command list
`["getblockcount"]`. -/
def envOk : Env where
  rpcUser? := none
  rpcPass? := none
  proc := procOk
  nodeInfo := .error []
  walletInfo := .error []
  clip := fun _ => .ok ()
  saveBook := fun _ => .ok ()
  addrCap := capTest
  commands := [("getblockcount").data]
  now := 0

/-- `envOk` with a failing process spawn. -/
def envBoom : Env := { envOk with proc := procBoom }

/-- The session state right after startup (defaults of `main`, empty
output). -/
def stStart : AppState where
  selected := 0
  output := []
  output_lines := []
  scroll_offset := 0
  node_info := []
  wallet_info := []
  show_qr_overlay := false
  address := ("bc1qfpacvgpjms0eu6mszhwgjjs03yldesmmcgzad0").data
  addr_cursor := byteLen (("bc1qfpacvgpjms0eu6mszhwgjjs03yldesmmcgzad0").data)
  overlay_status := none
  addr_book := []
  addr_selected := 0

/-- State with a two-line output buffer and scroll at the top. -/
def c3St : AppState := { stStart with output_lines := [("a").data, ("b").data] }

/-- Environment with the two-command list
`["getblockcount", "uptime"]`. -/
def envTwo : Env := { envOk with
  commands := [("getblockcount").data, ("uptime").data] }

/-- One saved entry for witness states. -/
def entry0 : AddressEntry := ⟨0, ("addr0").data⟩

/-- Overlay open over the empty book. -/
def stOvEmpty : AppState := { stStart with show_qr_overlay := true }

/-- Process oracle returning a fresh testnet-style address. -/
def procNew : ProcOracle := fun _ => .ok ⟨true, ("tb1qnew\n").data, []⟩

/-- `envOk` with the fresh-address process oracle. -/
def envC6 : Env := { envOk with proc := procNew }

/-- Overlay open over a one-entry book. -/
def stBookOv : AppState :=
  { stStart with show_qr_overlay := true, addr_book := [entry0],
                 addr_selected := 0 }

/-- Command list whose second entry is the empty string (loadable from
`commands.json` as `["a", ""]`). -/
def envC2 : Env := { envOk with commands := [("a").data, []] }

/-- QR capability that always renders. -/
def qrOk : QrOracle := fun _ => .ok (("qr").data)

/-- Overlay open over an empty edit buffer. -/
def stOvBlank : AppState :=
  { stStart with show_qr_overlay := true, address := [], addr_cursor := 0 }

-- ===== Theorems =====

-- ===== Basic lemmas about the string utilities =====

theorem dropWhile_head_false {p : Char → Bool} {l : RStr} {c : Char} {cs : RStr}
    (h : l.dropWhile p = c :: cs) : p c = false := by
  induction l with
  | nil => simp [List.dropWhile] at h
  | cons a t ih =>
    by_cases hp : p a
    · simp [List.dropWhile, hp] at h
      exact ih h
    · simp [List.dropWhile, hp] at h
      cases h.1
      simpa using hp

theorem dropWhile_eq_self_of_head_false {p : Char → Bool} {c : Char} {cs : RStr}
    (h : p c = false) : (c :: cs).dropWhile p = c :: cs := by
  simp [List.dropWhile, h]

/-- A nonempty result of `rustTrim` starts with a non-whitespace character. -/
theorem rustTrim_head_false {s : RStr} {c : Char} {cs : RStr}
    (h : rustTrim s = c :: cs) : isRustWhitespace c = false := by
  unfold rustTrim at h
  set u := s.dropWhile isRustWhitespace with hu
  have hsplit : u.reverse.takeWhile isRustWhitespace ++
      u.reverse.dropWhile isRustWhitespace = u.reverse :=
    List.takeWhile_append_dropWhile isRustWhitespace u.reverse
  have hu2 : u = (u.reverse.dropWhile isRustWhitespace).reverse ++
      (u.reverse.takeWhile isRustWhitespace).reverse := by
    conv_lhs => rw [← List.reverse_reverse u, ← hsplit]
    rw [List.reverse_append]
  rw [h] at hu2
  have : u = c :: (cs ++ (u.reverse.takeWhile isRustWhitespace).reverse) := by
    simpa using hu2
  exact dropWhile_head_false (l := s) (this ▸ hu.symm)

/-- A nonempty result of `rustTrim` ends with a non-whitespace character. -/
theorem rustTrim_last_false {s : RStr} {c : Char} {cs : RStr}
    (h : (rustTrim s).reverse = c :: cs) : isRustWhitespace c = false := by
  unfold rustTrim at h
  simp only [List.reverse_reverse] at h
  exact dropWhile_head_false h

/-- `str::trim` is idempotent. -/
theorem rustTrim_idem (s : RStr) : rustTrim (rustTrim s) = rustTrim s := by
  cases h : rustTrim s with
  | nil => simp [rustTrim, List.dropWhile]
  | cons c cs =>
    have h1 : isRustWhitespace c = false := rustTrim_head_false h
    have hdw : (c :: cs).dropWhile isRustWhitespace = c :: cs :=
      dropWhile_eq_self_of_head_false h1
    unfold rustTrim
    rw [hdw]
    have hex : ∃ d ds, (c :: cs).reverse = d :: ds := by
      cases hrev : (c :: cs).reverse with
      | nil => simp at hrev
      | cons d ds => exact ⟨d, ds, rfl⟩
    obtain ⟨d, ds, h2⟩ := hex
    have hd : isRustWhitespace d = false := by
      apply rustTrim_last_false (s := s)
      rw [h, h2]
    rw [h2, dropWhile_eq_self_of_head_false hd, ← h2, List.reverse_reverse]

theorem natDigitsAux_eq_digits :
    ∀ fuel n, n ≤ fuel → natDigitsAux fuel n = Nat.digits 10 n := by
  intro fuel
  induction fuel with
  | zero =>
    intro n hn
    interval_cases n
    simp [natDigitsAux]
  | succ fuel ih =>
    intro n hn
    cases n with
    | zero => simp [natDigitsAux]
    | succ m =>
      rw [natDigitsAux, Nat.digits_def' (b := 10) (by norm_num)
        (Nat.succ_pos m)]
      rw [ih ((m + 1) / 10) (by omega)]

theorem natDecDigits_eq (n : Nat) : natDecDigits n = Nat.digits 10 n :=
  natDigitsAux_eq_digits n n le_rfl

theorem digitChar_isDigit {d : Nat} (h : d < 10) :
    isDigitChar (Nat.digitChar d) = true ∧ digitVal (Nat.digitChar d) = d := by
  interval_cases d <;> exact ⟨by decide, by decide⟩

theorem parseNatAux_digits (cs : RStr) (hcs : ∀ c ∈ cs, isDigitChar c = true) :
    ∀ acc rest, (∀ c ∈ rest.head?, isDigitChar c = false) →
      parseNatAux acc (cs ++ rest) =
        (cs.foldl (fun a c => 10 * a + digitVal c) acc, rest) := by
  induction cs with
  | nil =>
    intro acc rest hrest
    cases rest with
    | nil => simp [parseNatAux]
    | cons c t =>
      have := hrest c (by simp)
      simp [parseNatAux, this]
  | cons c t ih =>
    intro acc rest hrest
    have hc : isDigitChar c = true := hcs c (by simp)
    simp only [List.cons_append, parseNatAux, hc, if_pos, List.append_eq]
    rw [ih (fun x hx => hcs x (by simp [hx])) (10 * acc + digitVal c) rest hrest]
    simp

theorem foldl_digits_encNat (n : Nat) :
    (encNat n).foldl (fun a c => 10 * a + digitVal c) 0 = n := by
  by_cases h : n = 0
  · subst h; decide
  · unfold encNat
    rw [if_neg h, natDecDigits_eq]
    rw [List.foldl_reverse]
    have hlt : ∀ d ∈ Nat.digits 10 n, d < 10 := fun d hd =>
      Nat.digits_lt_base (by norm_num) hd
    have : ∀ L, (∀ d ∈ L, d < 10) →
        (L.map Nat.digitChar).foldr (fun c a => 10 * a + digitVal c) 0 =
          Nat.ofDigits 10 L := by
      intro L
      induction L with
      | nil => intro _; simp [Nat.ofDigits]
      | cons d t ih =>
        intro hL
        have hd : d < 10 := hL d (by simp)
        simp only [List.map_cons, List.foldr_cons,
          ih (fun x hx => hL x (by simp [hx])), Nat.ofDigits_cons]
        rw [(digitChar_isDigit hd).2]
        ring
    rw [this _ hlt, Nat.ofDigits_digits]

theorem encNat_all_digits (n : Nat) :
    ∀ c ∈ encNat n, isDigitChar c = true := by
  intro c hc
  by_cases h : n = 0
  · subst h; simp [encNat] at hc; subst hc; decide
  · unfold encNat at hc
    rw [if_neg h, natDecDigits_eq] at hc
    simp only [List.mem_reverse, List.mem_map] at hc
    obtain ⟨d, hd, rfl⟩ := hc
    exact (digitChar_isDigit (Nat.digits_lt_base (by norm_num) hd)).1

theorem encNat_ne_nil (n : Nat) : encNat n ≠ [] := by
  by_cases h : n = 0
  · subst h; decide
  · unfold encNat
    rw [if_neg h, natDecDigits_eq]
    have : Nat.digits 10 n ≠ [] := by
      simpa using (Nat.digits_ne_nil_iff_ne_zero).2 h
    simp [this]

/-- Decimal round trip: parsing after rendering recovers the number when
the remainder does not begin with a digit. -/
theorem parseNatTok_encNat (n : Nat) (rest : RStr)
    (hrest : ∀ c ∈ rest.head?, isDigitChar c = false) :
    parseNatTok (encNat n ++ rest) = some ((n, rest)) := by
  cases he : encNat n with
  | nil => exact absurd he (encNat_ne_nil n)
  | cons c t =>
    have hc : isDigitChar c = true :=
      encNat_all_digits n c (by rw [he]; simp)
    have := parseNatAux_digits (encNat n) (encNat_all_digits n) 0 rest hrest
    rw [foldl_digits_encNat] at this
    rw [he] at this
    simp only [List.cons_append] at this
    simp only [List.cons_append, parseNatTok, hc, if_pos, this]

theorem parseStrBody_quote (rest : RStr) :
    parseStrBody ('"' :: rest) = some (([], rest)) := by
  unfold parseStrBody
  simp

theorem parseStrBody_esc (e : Char) (rest : RStr) :
    parseStrBody ('\\' :: e :: rest) =
      match parseStrBody rest with
      | some (v, r) => some ((e :: v, r))
      | none => none := by
  conv_lhs => unfold parseStrBody
  simp

theorem parseStrBody_other (c : Char) (rest : RStr) (h1 : c ≠ '"')
    (h2 : c ≠ '\\') :
    parseStrBody (c :: rest) =
      match parseStrBody rest with
      | some (v, r) => some ((c :: v, r))
      | none => none := by
  conv_lhs => unfold parseStrBody
  rw [if_neg h1, if_neg h2]

theorem parseStrBody_escape (s : RStr) (rest : RStr) :
    parseStrBody (escapeStr s ++ '"' :: rest) = some ((s, rest)) := by
  induction s with
  | nil => simp [escapeStr, parseStrBody_quote]
  | cons c t ih =>
    by_cases hc : c = '"' ∨ c = '\\'
    · have hesc : escapeStr (c :: t) = '\\' :: c :: escapeStr t := by
        simp [escapeStr, escChar, hc]
      rw [hesc, List.cons_append, List.cons_append, parseStrBody_esc, ih]
    · push_neg at hc
      have hesc : escapeStr (c :: t) = c :: escapeStr t := by
        simp [escapeStr, escChar, hc.1, hc.2]
      rw [hesc, List.cons_append, parseStrBody_other c _ hc.1 hc.2, ih]

/-- String-literal round trip. -/
theorem parseStrLit_encStrLit (s : RStr) (rest : RStr) :
    parseStrLit (encStrLit s ++ rest) = some ((s, rest)) := by
  have h : encStrLit s ++ rest = '"' :: (escapeStr s ++ '"' :: rest) := by
    simp [encStrLit]
  rw [h]
  simpa [parseStrLit] using parseStrBody_escape s rest

theorem expectPrefix_append (p r : RStr) : expectPrefix p (p ++ r) = some r := by
  induction p with
  | nil => simp [expectPrefix]
  | cons c cs ih => simp [expectPrefix, ih]

theorem parseEntry_encEntry (e : AddressEntry) (rest : RStr) :
    parseEntry (encEntry e ++ rest) = some ((e, rest)) := by
  have hassoc : encEntry e ++ rest =
      entryLit1 ++ (encNat e.created_at ++ (entryLit2 ++ (encStrLit e.address ++
        (("\x7d").data ++ rest)))) := by
    simp [encEntry]
  have hnat : parseNatTok (encNat e.created_at ++ (entryLit2 ++
      (encStrLit e.address ++ (("\x7d").data ++ rest)))) =
      some ((e.created_at, entryLit2 ++ (encStrLit e.address ++
        (("\x7d").data ++ rest)))) := by
    apply parseNatTok_encNat
    intro c hc
    simp [entryLit2] at hc
    subst hc
    decide
  simp only [List.cons_append, List.nil_append] at hnat
  rw [hassoc]
  unfold parseEntry
  simp [expectPrefix_append, expectPrefix, hnat, parseStrLit_encStrLit]

theorem parseBookAux_enc (l : List AddressEntry) (hl : l ≠ []) :
    ∀ fuel, l.length ≤ fuel →
      parseBookAux fuel (sepByComma (l.map encEntry) ++ [']']) =
        some ((l, [']'])) := by
  induction l with
  | nil => exact absurd rfl hl
  | cons e t ih =>
    intro fuel hfuel
    cases fuel with
    | zero => simp at hfuel
    | succ fuel =>
      cases t with
      | nil =>
        simp only [List.map_cons, List.map_nil, sepByComma]
        unfold parseBookAux
        rw [parseEntry_encEntry]
        simp
      | cons e2 t2 =>
        have hsep : sepByComma ((e :: e2 :: t2).map encEntry) ++ [']'] =
            encEntry e ++ (',' ::
              (sepByComma ((e2 :: t2).map encEntry) ++ [']'])) := by
          simp [sepByComma]
        rw [hsep]
        unfold parseBookAux
        rw [parseEntry_encEntry]
        have hf2 : (e2 :: t2).length ≤ fuel := by
          simp only [List.length_cons] at hfuel ⊢
          omega
        have hrec := ih (by simp) fuel hf2
        simp only [List.map_cons] at hrec
        simp [hrec]

theorem encEntry_head (e : AddressEntry) :
    ∃ t, encEntry e = '\x7b' :: t := by
  refine ⟨(("\"created_at\":").data) ++ encNat e.created_at ++ entryLit2 ++
    encStrLit e.address ++ ("\x7d").data, ?_⟩
  simp [encEntry, entryLit1]

theorem encEntry_len (e : AddressEntry) : 1 ≤ (encEntry e).length := by
  obtain ⟨tb, htb⟩ := encEntry_head e
  rw [htb]
  simp

theorem sepLen_ge (l : List AddressEntry) :
    l.length ≤ (sepByComma (l.map encEntry)).length := by
  induction l with
  | nil => simp [sepByComma]
  | cons e t ih =>
    cases t with
    | nil =>
      simpa [sepByComma] using encEntry_len e
    | cons e2 t2 =>
      have h1 : sepByComma ((e :: e2 :: t2).map encEntry) =
          encEntry e ++ ',' :: sepByComma ((e2 :: t2).map encEntry) := by
        simp [sepByComma]
      rw [h1]
      have h2 := encEntry_len e
      simp only [List.length_append, List.length_cons] at *
      omega

theorem decodeBook_encodeBook (l : List AddressEntry) :
    decodeBook (encodeBook l) = some l := by
  cases l with
  | nil => decide
  | cons e t =>
    obtain ⟨tb, htb⟩ := encEntry_head e
    have hz : ∃ z, sepByComma ((e :: t).map encEntry) = encEntry e ++ z := by
      cases t with
      | nil => exact ⟨[], by simp [sepByComma]⟩
      | cons e2 t2 =>
        exact ⟨',' :: sepByComma ((e2 :: t2).map encEntry), by simp [sepByComma]⟩
    obtain ⟨z, hz⟩ := hz
    have hrest : sepByComma ((e :: t).map encEntry) ++ [']'] =
        '\x7b' :: (tb ++ (z ++ [']'])) := by
      rw [hz, htb]
      simp
    have hlen : (e :: t).length ≤
        (sepByComma ((e :: t).map encEntry) ++ [']']).length + 1 := by
      have := sepLen_ge (e :: t)
      simp only [List.length_append] at *
      omega
    have hparse := parseBookAux_enc (e :: t) (by simp)
      ((sepByComma ((e :: t).map encEntry) ++ [']']).length + 1) hlen
    have hgoal : encodeBook (e :: t) =
        '[' :: (sepByComma ((e :: t).map encEntry) ++ [']']) := by
      simp [encodeBook]
    rw [hgoal, hrest]
    rw [hrest] at hparse
    have hne : ('\x7b' : Char) ≠ ']' := by decide
    unfold decodeBook
    simp only [List.length_cons, List.length_append, List.length_nil] at hparse
    simp [hparse, hne]

theorem maskChar_idem (c : Char) : maskChar (maskChar c) = maskChar c := by
  by_cases h : isDigitChar c
  · have hstar : isDigitChar '*' = false := by decide
    simp [maskChar, h, hstar]
  · simp [maskChar, h]

-- ===== check_address classification lemmas =====

theorem findValidNet_eq_find (P : AddrCap) (a : ParsedAddr) (L : List Network) :
    findValidNet P a L = L.find? (fun n => P.requireNetwork a n) := by
  induction L with
  | nil => simp [findValidNet]
  | cons n rest ih =>
    by_cases h : P.requireNetwork a n
    · simp [findValidNet, List.find?, h]
    · simp only [findValidNet, if_neg h, ih, List.find?_cons]
      simp [h]

-- ===== Claim theorems =====

/-- C7: for every well-formed list of address entries (including the
empty list), `save_address_book` to a path followed by
`load_address_book` from that path returns the list that was saved. -/
theorem C7_save_load_roundtrip (fs : FileSys) (path : RStr)
    (entries : List AddressEntry) :
    load_address_book (save_address_book fs path entries) path = entries := by
  unfold load_address_book save_address_book fsWrite
  simp [decodeBook_encodeBook]

/-- C4 (spec-modelled): the masking transform replaces every ASCII digit
with the fixed placeholder and leaves every other character unchanged
(character-wise, length-preserving), the display-off path returns the
stored text unmutated, and masking is idempotent at the display layer:
`mask (mask_off s) = mask s` and `mask (mask s) = mask s`. -/
theorem C4_masking_display_transform (s : RStr) :
    (maskSensitive s).length = s.length
    ∧ (∀ i c, s.get? i = some c →
        (maskSensitive s).get? i =
          some (if isDigitChar c then '*' else c))
    ∧ displayWallet false s = s
    ∧ maskSensitive (displayWallet false s) = maskSensitive s
    ∧ maskSensitive (maskSensitive s) = maskSensitive s := by
  refine ⟨by simp [maskSensitive], ?_, rfl, rfl, ?_⟩
  · intro i c hc
    simp only [maskSensitive, List.get?_map, hc, Option.map_some']
    simp [maskChar]
  · have hcomp : maskChar ∘ maskChar = maskChar := funext maskChar_idem
    simp [maskSensitive, List.map_map, hcomp]

/-- Witness for C4 at the concrete wallet line `"Balance: 1.23"`:
the digit at index 9 is masked to `'*'`. -/
theorem C4_masking_display_transform_witness :
    (maskSensitive (("Balance: 1.23").data)).get? 9 = some '*' := by
  have h := (C4_masking_display_transform (("Balance: 1.23").data)).2.1 9 '1'
    (by rfl)
  simpa using h

/-- C5: `check_address` is total and mutually exclusive over the three
classes, classifies a string identically to its trimmed form, returns
`Empty` exactly on blank-after-trim input, and reports the first matching
network in the fixed priority order main, test, test4, sig, reg. -/
theorem C5_check_address_classification (P : AddrCap) (s : RStr) :
    check_address P s = check_address P (rustTrim s)
    ∧ (check_address P s = .empty ↔ rustTrim s = [])
    ∧ (check_address P s = .empty ∨ check_address P s = .invalid ∨
        ∃ net, check_address P s = .validAny net)
    ∧ (∀ net, check_address P s = .validAny net ↔
        (rustTrim s ≠ [] ∧ ∃ a, P.fromStr (rustTrim s) = some a ∧
          netPriority.find? (fun n => P.requireNetwork a n) = some net)) := by
  refine ⟨?_, ?_, ?_, ?_⟩
  · unfold check_address
    rw [rustTrim_idem]
  · unfold check_address
    by_cases h : rustTrim s = []
    · simp [h]
    · simp only [if_neg h]
      cases hf : P.fromStr (rustTrim s) with
      | none => simp [h]
      | some a =>
        cases hn : findValidNet P a netPriority with
        | none => simp [h, hn]
        | some n => simp [h, hn]
  · unfold check_address
    by_cases h : rustTrim s = []
    · simp [h]
    · simp only [if_neg h]
      cases hf : P.fromStr (rustTrim s) with
      | none => simp
      | some a =>
        cases hn : findValidNet P a netPriority with
        | none => simp [hn]
        | some n => simp [hn]
  · intro net
    unfold check_address
    by_cases h : rustTrim s = []
    · simp [h]
    · simp only [if_neg h]
      cases hf : P.fromStr (rustTrim s) with
      | none => simp [h]
      | some a =>
        simp only [findValidNet_eq_find]
        cases hn : netPriority.find? (fun n => P.requireNetwork a n) with
        | none => simp [hn, h]
        | some n => simp [hn, h]

/-- Witness for C5 at `"  tb1qtest  "` with `capTest`: classification is
`ValidForNetwork(testnet)`, equal on the trimmed string, and testnet is
the first match in priority order. -/
theorem C5_check_address_classification_witness :
    check_address capTest (("  tb1qtest  ").data) =
      .validAny Network.testnet := by
  have h := (C5_check_address_classification capTest
    (("  tb1qtest  ").data)).2.2.2 Network.testnet
  exact h.mpr (by refine ⟨by decide, 7, by decide, by decide⟩)

/-- C10: when the spawned process completes with non-success status, the
executor wrapper returns `Ok` carrying `"Error: "` followed by the
process's stderr text; it returns `Err` only when the spawn/capture
oracle itself fails. -/
theorem C10_run_bitcoin_cli_errors (user? pass? : Option RStr)
    (proc : ProcOracle) (cmd baseCmd : RStr) (args : List RStr)
    (hsplit : rustSplitWhitespace cmd = baseCmd :: args) :
    (∀ o, proc (rpcUserArg user? :: rpcPassArg pass? :: baseCmd :: args) =
        .ok o → o.success = false →
        run_bitcoin_cli user? pass? proc cmd =
          some (.ok ((("Error: ").data) ++ o.stderr)))
    ∧ (∀ e, run_bitcoin_cli user? pass? proc cmd = some (.error e) →
        proc (rpcUserArg user? :: rpcPassArg pass? :: baseCmd :: args) =
          .error e) := by
  constructor
  · intro o hp hs
    unfold run_bitcoin_cli
    rw [hsplit]
    simp [hp, hs]
  · intro e he
    unfold run_bitcoin_cli at he
    rw [hsplit] at he
    cases hp : proc (rpcUserArg user? :: rpcPassArg pass? :: baseCmd :: args)
      with
    | error e2 =>
      simp [hp] at he
      rw [he]
    | ok o =>
      simp [hp] at he

/-- Witness for C10 at `"getblockcount"` with `procFail`: the wrapper
returns `Ok "Error: boom"`. -/
theorem C10_run_bitcoin_cli_errors_witness :
    run_bitcoin_cli none none procFail (("getblockcount").data) =
      some (.ok (("Error: boom").data)) := by
  have h := (C10_run_bitcoin_cli_errors none none procFail
    (("getblockcount").data) (("getblockcount").data) [] (by rfl)).1
    ⟨false, [], ("boom").data⟩ rfl rfl
  simpa using h

-- ===== Invariant-preservation lemmas for the event step =====

set_option maxHeartbeats 1000000 in
theorem overlayStep_preserves_dash (E : Env) (k : Key) (st st' : AppState)
    (h : overlayStep E k st = .cont st') :
    st'.scroll_offset = st.scroll_offset
    ∧ st'.output_lines = st.output_lines
    ∧ st'.selected = st.selected := by
  unfold overlayStep at h
  repeat' split at h
  all_goals (try cases h)
  all_goals simp

set_option maxHeartbeats 1000000 in
theorem step_scroll_inv (E : Env) (k : Key) (st st' : AppState)
    (hinv : st.scroll_offset ≤ st.output_lines.length - 1)
    (h : step E k st = .cont st') :
    st'.scroll_offset ≤ st'.output_lines.length - 1 := by
  unfold step at h
  by_cases hov : st.show_qr_overlay
  · rw [if_pos hov] at h
    obtain ⟨h1, h2, -⟩ := overlayStep_preserves_dash E k st st' h
    rw [h1, h2]
    exact hinv
  · rw [if_neg hov] at h
    unfold dashStep runSelected at h
    repeat' split at h
    all_goals (try cases h)
    all_goals (try simp)
    all_goals omega

/-- C1 (counterexample): with an executor whose invocation fails
(`Err`), pressing Enter makes the session abort via `?` instead of
continuing with a synthetic output line — refuting "never aborts the
session: the event loop continues after any executor failure". -/
theorem C1_counterexample_abort :
    step envBoom Key.enter stStart = .abort (("boom").data) := by rfl

/-- C1 (amended): when the executor call returns text (which includes
the synthetic `"Error: ..."` text produced for a non-zero exit status),
`output_lines` is replaced with the split result and the loop continues;
when the executor invocation itself fails (`Err`), the error propagates
through `?` and the session aborts. -/
theorem C1_executor_failure_amended (E : Env) (st : AppState) (cmd : RStr)
    (hov : st.show_qr_overlay = false)
    (hcmd : E.commands.get? st.selected = some cmd) :
    (∀ out, runCli E cmd = some (.ok out) →
        step E Key.enter st =
          .cont { st with selected := st.selected, output := out,
                          output_lines := rustLines out,
                          scroll_offset := 0 })
    ∧ (∀ e, runCli E cmd = some (.error e) →
        step E Key.enter st = .abort e) := by
  simp only [List.get?_eq_getElem?] at hcmd
  constructor <;> intro x hx <;>
    simp [step, hov, dashStep, runSelected, hcmd, hx]

/-- Witness for C1 (amended) on `envOk`: Enter re-runs the selected
command and the loop continues with the split output. -/
theorem C1_executor_failure_amended_witness :
    step envOk Key.enter stStart =
      .cont { stStart with selected := stStart.selected,
                           output := ("800000\n").data,
                           output_lines := rustLines (("800000\n").data),
                           scroll_offset := 0 } :=
  (C1_executor_failure_amended envOk stStart (("getblockcount").data)
    rfl rfl).1 (("800000\n").data) rfl

/-- C3 (counterexample): with a two-line buffer and visible height 5,
one scroll-down leaves `scroll_offset = 1`, which exceeds the claimed
bound `max(0, len(output_lines) - visible_height) = 0`. -/
theorem C3_counterexample_scroll_bound :
    step envOk Key.pageDown c3St = .cont { c3St with scroll_offset := 1 }
    ∧ ¬(({ c3St with scroll_offset := 1 } : AppState).scroll_offset ≤
        max 0 (({ c3St with scroll_offset := 1 } : AppState).output_lines.length
          - 5)) := by
  exact ⟨by rfl, by decide⟩

/-- C3 (amended): over any sequence of accepted key events, the scroll
offset stays within `0 ≤ scroll_offset ≤ max(0, len(output_lines) - 1)`:
the code clamps scrolling against the buffer length alone, not against
the visible height. -/
theorem C3_scroll_invariant_amended (E : Env) (ks : List Key)
    (st st' : AppState)
    (hinv : st.scroll_offset ≤ st.output_lines.length - 1)
    (hrun : runKeys E ks st = .cont st') :
    0 ≤ st'.scroll_offset
    ∧ st'.scroll_offset ≤ st'.output_lines.length - 1 := by
  refine ⟨Nat.zero_le _, ?_⟩
  induction ks generalizing st with
  | nil =>
    unfold runKeys at hrun
    cases hrun
    exact hinv
  | cons k ks ih =>
    unfold runKeys at hrun
    cases hstep : step E k st with
    | cont st2 =>
      rw [hstep] at hrun
      exact ih st2 (step_scroll_inv E k st st2 hinv hstep) hrun
    | quit s2 => rw [hstep] at hrun; cases hrun
    | abort e => rw [hstep] at hrun; cases hrun
    | panicked => rw [hstep] at hrun; cases hrun

/-- Witness for C3 (amended): two scroll-downs then a scroll-up on the
two-line buffer keep the invariant. -/
theorem C3_scroll_invariant_amended_witness :
    ∃ st', runKeys envOk [Key.pageDown, Key.pageDown, Key.pageUp] c3St =
        .cont st'
      ∧ (0 ≤ st'.scroll_offset
        ∧ st'.scroll_offset ≤ st'.output_lines.length - 1) :=
  ⟨{ c3St with scroll_offset := 0 }, rfl,
    C3_scroll_invariant_amended envOk [Key.pageDown, Key.pageDown, Key.pageUp]
      c3St { c3St with scroll_offset := 0 } (by decide) rfl⟩

/-- C8: selection navigation clamps to the command-list bounds with
no wraparound (no-op at either end), on an actual change re-runs the
newly selected command, resets the scroll to 0, and replaces the output
buffer with exactly that command's split result; every continuing step
keeps `selected` in bounds. -/
theorem C8_selection_navigation (E : Env) (st : AppState)
    (hov : st.show_qr_overlay = false)
    (hsel : st.selected < E.commands.length) :
    (st.selected + 1 = E.commands.length → step E Key.down st = .cont st)
    ∧ (st.selected = 0 → step E Key.up st = .cont st)
    ∧ (∀ cmd out, st.selected + 1 < E.commands.length →
        E.commands.get? (st.selected + 1) = some cmd →
        runCli E cmd = some (.ok out) →
        step E Key.down st =
          .cont { st with selected := st.selected + 1, output := out,
                          output_lines := rustLines out, scroll_offset := 0 })
    ∧ (∀ cmd out, 0 < st.selected →
        E.commands.get? (st.selected - 1) = some cmd →
        runCli E cmd = some (.ok out) →
        step E Key.up st =
          .cont { st with selected := st.selected - 1, output := out,
                          output_lines := rustLines out, scroll_offset := 0 })
    ∧ (∀ k st', step E k st = .cont st' →
        st'.selected < E.commands.length) := by
  refine ⟨?_, ?_, ?_, ?_, ?_⟩
  · intro hend
    have hguard : ¬(st.selected < E.commands.length - 1) := by omega
    simp [step, hov, dashStep, hguard]
  · intro h0
    simp [step, hov, dashStep, h0]
  · intro cmd out hlt hcmd hrun
    have hguard : st.selected < E.commands.length - 1 := by omega
    simp only [List.get?_eq_getElem?] at hcmd
    simp [step, hov, dashStep, runSelected, hguard, hcmd, hrun]
  · intro cmd out hpos hcmd hrun
    simp only [List.get?_eq_getElem?] at hcmd
    simp [step, hov, dashStep, runSelected, hpos, hcmd, hrun]
  · intro k st' h
    unfold step at h
    rw [if_neg (by rw [hov]; simp)] at h
    unfold dashStep runSelected at h
    repeat' split at h
    all_goals (try cases h)
    all_goals (try simp)
    all_goals omega

/-- Witness for C8: from the post-startup state, Down moves the
selection to index 1, re-runs, and resets scroll. -/
theorem C8_selection_navigation_witness :
    step envTwo Key.down stStart =
      .cont { stStart with selected := 1, output := ("800000\n").data,
                           output_lines := rustLines (("800000\n").data),
                           scroll_offset := 0 } :=
  (C8_selection_navigation envTwo stStart rfl (by decide)).2.2.1
    (("uptime").data) (("800000\n").data) (by decide) rfl rfl

set_option maxHeartbeats 1000000 in
/-- C9: with an empty address book, the overlay navigation keys are
no-ops; for a non-empty book, `book_selection_index` stays within
`[0, len-1]` after every continuing step (overlay navigation, overlay
open, and new+save included). -/
theorem C9_book_navigation_bounds (E : Env) (st : AppState)
    (hbook : st.addr_book ≠ [] → st.addr_selected < st.addr_book.length) :
    (st.addr_book = [] → st.show_qr_overlay = true →
        step E Key.up st = .cont st ∧ step E Key.down st = .cont st)
    ∧ (∀ k st', step E k st = .cont st' →
        st'.addr_book ≠ [] → st'.addr_selected < st'.addr_book.length) := by
  constructor
  · intro hempty hov
    constructor <;> simp [step, hov, overlayStep, hempty]
  · intro k st' h
    unfold step at h
    by_cases hov : st.show_qr_overlay
    · rw [if_pos hov] at h
      unfold overlayStep at h
      repeat' split at h
      all_goals (try cases h)
      all_goals intro hne
      all_goals (try exact hbook hne)
      all_goals simp_all
      all_goals omega
    · rw [if_neg hov] at h
      unfold dashStep runSelected at h
      repeat' split at h
      all_goals (try cases h)
      all_goals intro hne
      all_goals exact hbook hne

/-- Witness for C9: with an empty book and the overlay open, both
navigation keys are no-ops. -/
theorem C9_book_navigation_bounds_witness :
    step envOk Key.up stOvEmpty = .cont stOvEmpty
    ∧ step envOk Key.down stOvEmpty = .cont stOvEmpty :=
  (C9_book_navigation_bounds envOk stOvEmpty
    (fun h => absurd rfl h)).1 rfl rfl

set_option maxHeartbeats 1000000 in
/-- C6: for the overlay new+save operation with an executor success: if
the trimmed result is network-valid, the new entry (timestamp = now,
address = trimmed result) is appended, the book is persisted, the entry
becomes the selection and the buffer mirrors it; a save failure keeps
the appended entry in memory and only changes the status; a non-valid
result only sets a transient error status, leaving book, selection and
buffer unchanged. -/
theorem C6_new_save_behavior (E : Env) (st : AppState) (s : RStr)
    (hov : st.show_qr_overlay = true)
    (hrun : runCli E (("getnewaddress").data) = some (.ok s)) :
    (∀ net, check_address E.addrCap (rustTrim s) = .validAny net →
      (E.saveBook (st.addr_book ++ [AddressEntry.mk E.now (rustTrim s)]) =
          .ok () →
        step E (Key.char 'n') st = .cont { st with
          addr_book := st.addr_book ++ [AddressEntry.mk E.now (rustTrim s)],
          overlay_status := some ((("New address saved").data, E.now)),
          addr_selected := st.addr_book.length,
          address := rustTrim s,
          addr_cursor := byteLen (rustTrim s) })
      ∧ (∀ err,
          E.saveBook (st.addr_book ++ [AddressEntry.mk E.now (rustTrim s)]) =
            .error err →
          step E (Key.char 'n') st = .cont { st with
            addr_book := st.addr_book ++ [AddressEntry.mk E.now (rustTrim s)],
            overlay_status := some ((("Save failed: ").data ++ err, E.now)),
            addr_selected := st.addr_book.length,
            address := rustTrim s,
            addr_cursor := byteLen (rustTrim s) }))
    ∧ ((∀ net, check_address E.addrCap (rustTrim s) ≠ .validAny net) →
        step E (Key.char 'n') st = .cont { st with
          overlay_status :=
            some ((("RPC returned invalid address").data, E.now)) }) := by
  constructor
  · intro net hca
    have hva : (check_address E.addrCap (rustTrim s)).isValidAny = true := by
      rw [hca]; rfl
    constructor
    · intro hsave
      simp [step, hov, overlayStep, hrun, hva, hsave]
    · intro err hsave
      simp [step, hov, overlayStep, hrun, hva, hsave]
  · intro hinv
    have hva : (check_address E.addrCap (rustTrim s)).isValidAny = false := by
      cases hc : check_address E.addrCap (rustTrim s) with
      | empty => rfl
      | invalid => rfl
      | validAny n => exact absurd hc (hinv n)
    simp [step, hov, overlayStep, hrun, hva]

/-- Witness for C6: a successful new+save appends the trimmed address,
persists, selects the new entry and mirrors it into the buffer. -/
theorem C6_new_save_behavior_witness :
    step envC6 (Key.char 'n') stBookOv = .cont { stBookOv with
      addr_book := stBookOv.addr_book ++
        [AddressEntry.mk envC6.now (rustTrim (("tb1qnew\n").data))],
      overlay_status := some ((("New address saved").data, envC6.now)),
      addr_selected := stBookOv.addr_book.length,
      address := rustTrim (("tb1qnew\n").data),
      addr_cursor := byteLen (rustTrim (("tb1qnew\n").data)) } :=
  ((C6_new_save_behavior envC6 stBookOv (("tb1qnew\n").data) rfl rfl).1
    Network.testnet (by rfl)).1 rfl

theorem runCli_ne_none (E : Env) (cmd : RStr)
    (h : rustSplitWhitespace cmd ≠ []) : runCli E cmd ≠ none := by
  unfold runCli run_bitcoin_cli
  cases hs : rustSplitWhitespace cmd with
  | nil => exact absurd hs h
  | cons b args =>
    cases hp : E.proc (rpcUserArg E.rpcUser? :: rpcPassArg E.rpcPass? ::
        b :: args) <;> simp [hp]

theorem byteLen_ascii (s : RStr) (h : ∀ c ∈ s, charWidth c = 1) :
    byteLen s = s.length := by
  induction s with
  | nil => rfl
  | cons c t ih =>
    have hc : charWidth c = 1 := h c (by simp)
    have ht := ih (fun x hx => h x (by simp [hx]))
    simp only [byteLen, List.map_cons, List.sum_cons, List.length_cons]
      at ht ⊢
    omega

theorem byteRemove_ascii_ne_none (s : RStr) (h : ∀ c ∈ s, charWidth c = 1) :
    ∀ i, i < s.length → byteRemove s i ≠ none := by
  induction s with
  | nil =>
    intro i hi
    simp at hi
  | cons c t ih =>
    intro i hi
    cases i with
    | zero => simp [byteRemove]
    | succ j =>
      have hc : charWidth c = 1 := h c (by simp)
      have hrec := ih (fun x hx => h x (by simp [hx])) j (by simpa using hi)
      unfold byteRemove
      rw [hc, if_neg (by omega)]
      simp only [Nat.add_sub_cancel]
      cases hbr : byteRemove t j with
      | some u => simp
      | none => exact absurd hbr hrec

theorem byteInsert_ascii_ne_none (s : RStr) (h : ∀ c ∈ s, charWidth c = 1) :
    ∀ i c', i ≤ s.length → byteInsert s i c' ≠ none := by
  induction s with
  | nil =>
    intro i c' hi
    cases i with
    | zero => simp [byteInsert]
    | succ j => simp at hi
  | cons c t ih =>
    intro i c' hi
    cases i with
    | zero => simp [byteInsert]
    | succ j =>
      have hc : charWidth c = 1 := h c (by simp)
      have hrec := ih (fun x hx => h x (by simp [hx])) j c' (by simpa using hi)
      unfold byteInsert
      rw [hc, if_neg (by omega)]
      simp only [Nat.add_sub_cancel]
      cases hbi : byteInsert t j c' with
      | some u => simp
      | none => exact absurd hbi hrec

/-- Typing a two-byte character leaves the byte cursor inside it
(`addr_cursor` advances by one byte regardless of the typed character's
width), so the next insertion indexes a non-char-boundary byte and
panics in `String::insert`. -/
theorem multibyte_cursor_insert_panics :
    runKeys envOk [Key.char 'é', Key.char 'a'] stOvBlank = .panicked := by
  rfl

set_option maxHeartbeats 1000000 in
/-- C2 (amended): under the reachability invariants (selection in
bounds, byte cursor within the buffer, book selection in bounds) and
provided every loaded command string contains at least one
non-whitespace character and the edit buffer holds only single-byte
(ASCII) characters, no accepted key event panics — in particular
overlay insertion, backspace, delete and executor invocation; QR
rendering never panics when the QR capability succeeds on nonempty data
(the code substitutes `" "` for empty input).  A whitespace-only command
string makes the executor wrapper panic
(`C2_counterexample_empty_command_panics`), and a multi-byte character
in the buffer desynchronizes the byte cursor, after which insert/delete
panic on a non-char-boundary index (`multibyte_cursor_insert_panics`). -/
theorem C2_no_panic_amended (E : Env) (st : AppState)
    (hcmds : ∀ c ∈ E.commands, rustSplitWhitespace c ≠ [])
    (hsel : st.selected < E.commands.length)
    (hascii : ∀ c ∈ st.address, charWidth c = 1)
    (hcur : st.addr_cursor ≤ byteLen st.address)
    (hbook : st.addr_book ≠ [] → st.addr_selected < st.addr_book.length) :
    (∀ k, step E k st ≠ .panicked)
    ∧ (∀ qr data, (∀ d, d ≠ [] → ∃ g, qr d = .ok g) →
        generate_qr_unicode qr data ≠ none) := by
  constructor
  · intro k hpan
    unfold step at hpan
    by_cases hov : st.show_qr_overlay
    · rw [if_pos hov] at hpan
      have hbl : byteLen st.address = st.address.length :=
        byteLen_ascii st.address hascii
      rw [hbl] at hcur
      unfold overlayStep at hpan
      repeat' split at hpan
      all_goals (try cases hpan)
      all_goals (try (exact absurd (by assumption)
                        (runCli_ne_none E (("getnewaddress").data)
                          (by decide))))
      all_goals (try simp_all [List.get?_eq_none, hbl])
      all_goals (casesm* _ ∧ _)
      all_goals (try (exact absurd (by assumption)
                        (byteRemove_ascii_ne_none st.address hascii _
                          (by omega))))
      all_goals (try (exact absurd (by assumption)
                        (byteInsert_ascii_ne_none st.address hascii _ _
                          (by omega))))
      all_goals omega
    · rw [if_neg hov] at hpan
      unfold dashStep runSelected at hpan
      repeat' split at hpan
      all_goals (try cases hpan)
      all_goals (try (exact absurd (by assumption)
                        (runCli_ne_none E _
                          (hcmds _ (List.get?_mem (by assumption))))))
      all_goals simp_all [List.get?_eq_none]
      all_goals omega
  · intro qr data hqr
    unfold generate_qr_unicode
    by_cases hd : data = []
    · obtain ⟨g, hg⟩ := hqr [' '] (by simp)
      simp [hd, hg]
    · obtain ⟨g, hg⟩ := hqr data hd
      simp [hd, hg]

/-- C2 (counterexample): from the post-startup state, selecting the
empty command string makes `run_bitcoin_cli`'s `parts.next().unwrap()`
panic — refuting "executor invocation with any command string from the
loaded command list never panics". -/
theorem C2_counterexample_empty_command_panics :
    step envC2 Key.down stStart = .panicked := by rfl

/-- Witness for C2 (amended): a character insertion does not panic, and
QR rendering with a succeeding capability does not panic. -/
theorem C2_no_panic_amended_witness :
    step envOk (Key.char 'b') stStart ≠ .panicked
    ∧ generate_qr_unicode qrOk (("tb1qnew").data) ≠ none :=
  ⟨(C2_no_panic_amended envOk stStart (by decide) (by decide) (by decide)
      (by decide) (fun h => absurd rfl h)).1 (Key.char 'b'),
   (C2_no_panic_amended envOk stStart (by decide) (by decide) (by decide)
      (by decide) (fun h => absurd rfl h)).2 qrOk (("tb1qnew").data)
      (fun _ _ => ⟨("qr").data, rfl⟩)⟩
